import Mathlib

/-!
Verification development for the packing-list generator (`app.py`).

The core logic of the program consists of four pure helpers:

* `safe_sheet_name` — sanitizes a sheet name (`re.sub(r"[:\\/?*\[\]]", "-", str(name)).strip()`,
  fallback `"Sheet"`, truncation to 31 characters);
* `normalize` — `re.sub(r"\s+", " ", str(s)).strip().lower()`;
* `guess_col` — first substring match of an ordered phrase list over normalized headers;
* `make_output_excel` — cleans the table (`dropna` on the class/lesson/item columns),
  coerces the quantity column (`pd.to_numeric(..., errors="coerce").fillna(0)`),
  groups by the (class, lesson, item) triple with quantity summed and the optional
  size/unit columns aggregated with pandas `"first"` (first non-null value), and
  writes one sheet per (class, lesson) pair plus a final `INDEX` sheet.

The embedding models a cell as `Option String` (`none` = pandas `NaN`/missing), a
table as a header list plus rows of cells, and numbers as `Int` (`pd.to_numeric`
restricted to the integer literals the data model produces).  Failure
modes of the pandas pipeline are modelled explicitly in `make_output_excel`:
`KeyError` for missing labels, the `ValueError` raised by
`groupby(..., as_index=False).agg` when the grouping labels are duplicated
(`cannot insert <col>, already exists`), and the `KeyError: 'Class'` raised by
`pd.DataFrame([]).sort_values(["Class", "Lesson"])` when no group survives
cleaning (an empty `DataFrame` has no columns to sort by).
-/

set_option maxHeartbeats 1000000
set_option maxRecDepth 4000

namespace App

/-! ## Text normalizer and sheet-name sanitizer -/

/-- One pass of `re.sub(r"\s+", " ", s)`: every maximal run of whitespace becomes a
single `' '`.  The boolean flag records whether the previous character was part of
a whitespace run that has already emitted its `' '`. -/
def collapseAux (prevWs : Bool) : List Char → List Char
  | [] => []
  | c :: cs =>
    if c.isWhitespace then
      if prevWs then collapseAux true cs else ' ' :: collapseAux true cs
    else c :: collapseAux false cs

/-- Python `str.strip()`: drop leading and trailing whitespace. -/
def stripList (l : List Char) : List Char :=
  ((l.dropWhile Char.isWhitespace).reverse.dropWhile Char.isWhitespace).reverse

/-- `normalize(s) = re.sub(r"\s+", " ", str(s)).strip().lower()` (lowercasing
modelled by `Char.toLower`, i.e. restricted to ASCII letters). -/
def normalize (s : String) : String :=
  ⟨(stripList (collapseAux false s.data)).map Char.toLower⟩

/-- The characters replaced by `re.sub(r"[:\\/?*\[\]]", "-", name)`. -/
def forbiddenChars : List Char := [':', '\\', '/', '?', '*', '[', ']']

def replChar (c : Char) : Char := if c ∈ forbiddenChars then '-' else c

/-- `safe_sheet_name`: replace forbidden characters by `-`, strip whitespace,
fall back to `"Sheet"` when empty, truncate to 31 characters. -/
def safe_sheet_name (name : String) : String :=
  let n : List Char := stripList (name.data.map replChar)
  ⟨(if n.isEmpty then "Sheet".data else n).take 31⟩

/-! ## Column role inferrer -/

/-- Python's `phrase in cn` substring test. -/
def containsSub (s pat : String) : Bool := decide (pat.data <:+: s.data)

/-- `guess_col(columns, candidates)`: for each candidate phrase in priority order,
scan the headers in their given order and return the first header whose
normalized form contains the phrase.  (The source builds a `dict` of
`column ↦ normalize(column)`; iteration order of a Python dict is insertion
order, and duplicate column names collapse to a single entry with the same
value, so iterating the list directly is observationally identical.) -/
def guess_col (columns candidates : List String) : Option String :=
  candidates.findSome? (fun phrase => columns.find? (fun c => containsSub (normalize c) phrase))

/-! ## Data model -/

/-- A cell of the raw table; `none` models pandas `NaN` / a missing value. -/
abbrev Cell := Option String

/-- A raw table: named columns over rows of cells (row-major). -/
structure Table where
  headers : List String
  rows : List (List Cell)
deriving DecidableEq

/-- The user-confirmed role mapping handed to `make_output_excel`. -/
structure Mapping where
  classCol : String
  lessonCol : String
  itemCol : String
  qtyCol : String
  sizeCol : Option String
  uomCol : Option String
deriving DecidableEq

/-- `df.at[row, h]`: the cell of column `h`, `none` when the column is missing or
the row is short. -/
def getCell (hd : List String) (r : List Cell) (h : String) : Cell :=
  match hd.findIdx? (· == h) with
  | some i => r.getD i none
  | none => none

/-- The spec's `RoleMapping` invariant: the four required columns are pairwise
distinct, and each optional column (when present) is distinct from the required
ones (the spec does not require the two optional columns to differ from each
other). -/
def requiredCols (m : Mapping) : List String :=
  [m.classCol, m.lessonCol, m.itemCol, m.qtyCol]

def validMapping (m : Mapping) : Bool :=
  (m.classCol != m.lessonCol) && (m.classCol != m.itemCol) && (m.classCol != m.qtyCol) &&
  (m.lessonCol != m.itemCol) && (m.lessonCol != m.qtyCol) && (m.itemCol != m.qtyCol) &&
  m.sizeCol.all (fun s => !(requiredCols m).contains s) &&
  m.uomCol.all (fun u => !(requiredCols m).contains u)

/-! ## Cleaning and quantity coercion -/

/-- `df.dropna(subset=[class_col, lesson_col, item_col])` keeps a row iff all
three cells are non-null. -/
def rowKept (hd : List String) (m : Mapping) (r : List Cell) : Bool :=
  (getCell hd r m.classCol).isSome && (getCell hd r m.lessonCol).isSome &&
    (getCell hd r m.itemCol).isSome

def cleanRows (t : Table) (m : Mapping) : List (List Cell) :=
  t.rows.filter (rowKept t.headers m)

def digitsVal (cs : List Char) : Nat :=
  cs.foldl (fun n c => n * 10 + (c.toNat - 48)) 0

/-- `pd.to_numeric(·, errors="coerce")` on a string cell, restricted to the
integer literals the data model produces: an optional sign followed by digits.
(Real `to_numeric` also accepts decimal forms; numbers here are modelled as
`Int`, which is all the spec's quantities use.)  Anything else is `none`
(pandas `NaN`). -/
def parseNum (s : String) : Option Int :=
  let core : Option Int → List Char → Option Int := fun sign r =>
    if !r.isEmpty && r.all Char.isDigit then
      (sign.getD 1).mul (digitsVal r) |> some
    else none
  match s.data with
  | '-' :: r => core (some (-1)) r
  | '+' :: r => core (some 1) r
  | r => core none r

/-- `pd.to_numeric(·, errors="coerce").fillna(0)`: null or unparseable
quantities become `0`; this coercion is total and never fails. -/
def coerceQty (c : Cell) : Int :=
  match c with
  | none => 0
  | some s => (parseNum s).getD 0

/-! ## Grouping and aggregation -/

abbrev Key := String × String × String

/-- The (class, lesson, item) group key of a cleaned row (all three cells are
`some` for cleaned rows; `getD` merely strips the `some`). -/
def keyOf (hd : List String) (m : Mapping) (r : List Cell) : Key :=
  ((getCell hd r m.classCol).getD "", (getCell hd r m.lessonCol).getD "",
    (getCell hd r m.itemCol).getD "")

/-- All cleaned rows of one (class, lesson, item) group, in original row order. -/
def rowsOfKey (hd : List String) (m : Mapping) (cleaned : List (List Cell)) (k : Key) :
    List (List Cell) :=
  cleaned.filter (fun r => keyOf hd m r == k)

/-- Quantity aggregation: the arithmetic sum of coerced quantities of the group. -/
def aggQty (hd : List String) (m : Mapping) (cleaned : List (List Cell)) (k : Key) : Int :=
  ((rowsOfKey hd m cleaned k).map (fun r => coerceQty (getCell hd r m.qtyCol))).sum

/-- pandas `"first"` aggregation: the first NON-NULL value of the column within
the group (`GroupBy.first` skips NA values); `none` when every value is null. -/
def aggFirstVal (hd : List String) (m : Mapping) (cleaned : List (List Cell))
    (col : String) (k : Key) : Cell :=
  (rowsOfKey hd m cleaned k).findSome? (fun r => getCell hd r col)

/-- `if size_col and size_col in df.columns`: an optional column is active when
it is requested, truthy (non-empty — Python `if size_col`), and exists in the
table. -/
def activeOpt (hd : List String) (oc : Option String) : Option String :=
  match oc with
  | some s => if s ≠ "" ∧ s ∈ hd then some s else none
  | none => none

inductive AggKind
  | sum
  | first
deriving DecidableEq

/-- Python dict assignment `d[k] = v`: replace the value when the key exists,
otherwise append the binding. -/
def dictInsert (d : List (String × AggKind)) (k : String) (v : AggKind) :
    List (String × AggKind) :=
  if d.any (fun p => p.1 == k) then d.map (fun p => if p.1 == k then (p.1, v) else p)
  else d ++ [(k, v)]

/-- The `agg` dict of the source: `{qty_col: "sum"}`, then `agg[size_col] = "first"`
and `agg[uom_col] = "first"` for the active optional columns (note that an
optional column equal to `qty_col` would overwrite the `"sum"` entry, exactly
as the Python dict does). -/
def aggDict (hd : List String) (m : Mapping) : List (String × AggKind) :=
  let d0 := [(m.qtyCol, AggKind.sum)]
  let d1 := match activeOpt hd m.sizeCol with
    | some s => dictInsert d0 s AggKind.first
    | none => d0
  match activeOpt hd m.uomCol with
  | some u => dictInsert d1 u AggKind.first
  | none => d1

def groupCols (m : Mapping) : List String := [m.classCol, m.lessonCol, m.itemCol]

/-- The `"first"`-aggregated tail of the agg dict, as a function of the two
active optional columns (used to state the shape of `aggDict` under a valid
mapping; when both roles name the same header the dict holds it once). -/
def optFirstList : Option String → Option String → List (String × AggKind)
  | some s, some u =>
    if s = u then [(s, AggKind.first)] else [(s, AggKind.first), (u, AggKind.first)]
  | some s, none => [(s, AggKind.first)]
  | none, some u => [(u, AggKind.first)]
  | none, none => []

/-! ## Orders and sorting

pandas `groupby(..., sort=True)` and `sort_values` order string keys by their
code points, which is exactly Lean's `String` linear order.  The source only
ever sorts lists whose sort keys are pairwise distinct (group keys are unique
after aggregation), so any comparison sort produces the same result; we use
insertion sort. -/

def insertB (le : α → α → Bool) (a : α) : List α → List α
  | [] => [a]
  | b :: bs => if le a b then a :: b :: bs else b :: insertB le a bs

def sortByB (le : α → α → Bool) : List α → List α
  | [] => []
  | a :: as => insertB le a (sortByB le as)

/-- Strict code-point lexicographic order on character lists — the order
Python (and hence pandas) uses to compare strings.  Defined structurally so
that it evaluates inside the kernel. -/
def charListLt : List Char → List Char → Bool
  | [], [] => false
  | [], _ :: _ => true
  | _ :: _, [] => false
  | a :: as, b :: bs =>
    if a.toNat < b.toNat then true
    else if b.toNat < a.toNat then false
    else charListLt as bs

def strLt (a b : String) : Bool := charListLt a.data b.data

def strLe (a b : String) : Bool := strLt a b || a == b

/-- Lexicographic order on `String × β` given an order on `β`. -/
def lexSB (le : β → β → Bool) (a b : String × β) : Bool :=
  strLt a.1 b.1 || (a.1 == b.1 && le a.2 b.2)

def pairLe : String × String → String × String → Bool := lexSB strLe

def keyLe : Key → Key → Bool := lexSB pairLe

/-- `sort_values(by=item_col)`: compare group keys by their item component. -/
def itemLe (k1 k2 : Key) : Bool := strLe k1.2.2 k2.2.2

/-! ## The aggregated frame `df2` and the per-sheet frames -/

/-- The group keys of `df2 = df.groupby(group_cols, as_index=False).agg(agg)`:
the distinct (class, lesson, item) triples of the cleaned rows, sorted
ascending (pandas `groupby` sorts group keys by default). -/
def keysOf (hd : List String) (m : Mapping) (cleaned : List (List Cell)) : List Key :=
  sortByB keyLe ((cleaned.map (keyOf hd m)).dedup)

/-- The distinct (class, lesson) pairs, in the order `df2.groupby([class_col,
lesson_col])` iterates them (sorted, since `df2` is sorted by the triple). -/
def pairsOf (hd : List String) (m : Mapping) (cleaned : List (List Cell)) :
    List (String × String) :=
  ((keysOf hd m cleaned).map (fun k => (k.1, k.2.1))).dedup

/-- The rows of one sheet's group `g`, sorted by `sort_values(by=item_col)`.
Items are distinct within a (class, lesson) pair, so the sort is canonical. -/
def sheetKeys (hd : List String) (m : Mapping) (cleaned : List (List Cell))
    (p : String × String) : List Key :=
  sortByB itemLe ((keysOf hd m cleaned).filter (fun k => (k.1, k.2.1) == p))

/-- `out_cols = [item_col, qty_col]` plus the active optional columns. -/
def outCols (hd : List String) (m : Mapping) : List String :=
  [m.itemCol, m.qtyCol] ++ (activeOpt hd m.sizeCol).toList ++ (activeOpt hd m.uomCol).toList

/-- The `rename(columns={item_col: "Item", qty_col: "Quantity", size_col: "Size",
uom_col: "Unit/Notes"})` dict: for a column label `h`, the label assigned by the
dict, where a later duplicate key wins (Python dict literal semantics — in
particular `size_col == uom_col` maps that column to `"Unit/Notes"`). -/
def renameLabel (m : Mapping) (h : String) : String :=
  if m.uomCol = some h then "Unit/Notes"
  else if m.sizeCol = some h then "Size"
  else if h = m.qtyCol then "Quantity"
  else if h = m.itemCol then "Item"
  else h

/-- A cell of an output worksheet. -/
inductive OutCell
  | str : String → OutCell
  | num : Int → OutCell
  | blank : OutCell
deriving DecidableEq

def cellToOut : Cell → OutCell
  | some s => OutCell.str s
  | none => OutCell.blank

/-- The value of column `h` of `df2` in the group-key row `k`: a group-key
column holds the key component, an aggregated column holds its `sum`/`first`
aggregate.  (The pipeline errors out before this point whenever a label is
both a grouping and an aggregation column.) -/
def df2Val (hd : List String) (m : Mapping) (cleaned : List (List Cell))
    (k : Key) (h : String) : OutCell :=
  if h = m.classCol then OutCell.str k.1
  else if h = m.lessonCol then OutCell.str k.2.1
  else if h = m.itemCol then OutCell.str k.2.2
  else
    match (aggDict hd m).find? (fun p => p.1 == h) with
    | some (_, AggKind.sum) => OutCell.num (aggQty hd m cleaned k)
    | some (_, AggKind.first) => cellToOut (aggFirstVal hd m cleaned h k)
    | none => OutCell.blank

/-- One row of a data sheet: `g[out_cols]` projected at group key `k`. -/
def rowFor (hd : List String) (m : Mapping) (cleaned : List (List Cell))
    (k : Key) : List OutCell :=
  (outCols hd m).map (df2Val hd m cleaned k)

/-- A written worksheet: header labels and rows. -/
structure Frame where
  header : List String
  rows : List (List OutCell)
deriving DecidableEq

/-- The data sheet of a (class, lesson) pair:
`g[out_cols].sort_values(by=item_col).rename(columns=...)`. -/
def sheetFrame (hd : List String) (m : Mapping) (cleaned : List (List Cell))
    (p : String × String) : Frame :=
  { header := (outCols hd m).map (renameLabel m),
    rows := (sheetKeys hd m cleaned p).map (rowFor hd m cleaned) }

/-- `safe_sheet_name(f"(class) - (lesson)")`. -/
def sheetName (p : String × String) : String :=
  safe_sheet_name (p.1 ++ " - " ++ p.2)

structure IndexEntry where
  cls : String
  les : String
  sheet : String
  items : Nat
deriving DecidableEq

/-- One index row per (class, lesson) group, in emission order. -/
def indexEntries (hd : List String) (m : Mapping) (cleaned : List (List Cell)) :
    List IndexEntry :=
  (pairsOf hd m cleaned).map
    (fun p => ⟨p.1, p.2, sheetName p, (sheetKeys hd m cleaned p).length⟩)

def idxLe (a b : IndexEntry) : Bool := pairLe (a.cls, a.les) (b.cls, b.les)

/-- `pd.DataFrame(index_rows).sort_values(["Class", "Lesson"])` written as the
`INDEX` sheet. -/
def indexFrame (hd : List String) (m : Mapping) (cleaned : List (List Cell)) : Frame :=
  { header := ["Class", "Lesson", "Sheet", "Items"],
    rows := (sortByB idxLe (indexEntries hd m cleaned)).map
      (fun e => [OutCell.str e.cls, OutCell.str e.les, OutCell.str e.sheet,
        OutCell.num (e.items : Int)]) }

/-- The workbook: the sequence of `to_excel` writes, data sheets first, `INDEX`
last. -/
structure Workbook where
  sheets : List (String × Frame)
deriving DecidableEq

def assembleWB (hd : List String) (m : Mapping) (cleaned : List (List Cell)) : Workbook :=
  ⟨(pairsOf hd m cleaned).map (fun p => (sheetName p, sheetFrame hd m cleaned p))
    ++ [("INDEX", indexFrame hd m cleaned)]⟩

/-- The errors the pandas pipeline can raise.  `invalidMapping` is the error the
spec prescribes for a non-distinct mapping; the source never raises it (it is
included so the spec's claim is statable). -/
inductive PdError
  | keyError : String → PdError
  | valueError : String → PdError
  | invalidMapping : PdError
deriving DecidableEq

/-- The label pandas names in the `cannot insert ..., already exists` error when
the grouping labels `[class_col, lesson_col, item_col]` are duplicated. -/
def dupGroupCol (m : Mapping) : String :=
  if m.classCol = m.lessonCol ∨ m.classCol = m.itemCol then m.classCol else m.lessonCol

/-- `make_output_excel(df, class_col, lesson_col, item_col, qty_col, size_col,
uom_col)`.  Failure modes, in source order:
1. `df.dropna(subset=[class_col, lesson_col, item_col])` raises `KeyError` on a
   missing label;
2. `df[qty_col]` raises `KeyError` when the quantity column is missing;
3. `groupby(group_cols, as_index=False).agg(agg)` raises `KeyError` when an
   `agg` key is one of the grouping labels, and `ValueError: cannot insert ...,
   already exists` when the grouping labels are duplicated (`as_index=False`
   re-inserts the group keys as columns);
4. with zero surviving groups, `pd.DataFrame([]).sort_values(["Class", "Lesson"])`
   raises `KeyError: 'Class'` (an empty `DataFrame` has no columns), so the
   writer never produces a workbook.
Note there is NO distinctness re-check of the mapping anywhere in this
function; the only such check in the source lives in the UI layer, before this
function is called. -/
def make_output_excel (t : Table) (m : Mapping) : Except PdError Workbook :=
  let hd := t.headers
  if m.classCol ∉ hd then Except.error (PdError.keyError m.classCol)
  else if m.lessonCol ∉ hd then Except.error (PdError.keyError m.lessonCol)
  else if m.itemCol ∉ hd then Except.error (PdError.keyError m.itemCol)
  else if m.qtyCol ∉ hd then Except.error (PdError.keyError m.qtyCol)
  else if (aggDict hd m).any (fun p => (groupCols m).contains p.1) then
    Except.error (PdError.keyError "agg column is a grouping key")
  else if ¬ (groupCols m).Nodup then
    Except.error (PdError.valueError ("cannot insert " ++ dupGroupCol m ++ ", already exists"))
  else
    let cleaned := cleanRows t m
    if pairsOf hd m cleaned = [] then Except.error (PdError.keyError "Class")
    else Except.ok (assembleWB hd m cleaned)

/-! ## Observation helpers -/

def sheetNames (wb : Workbook) : List String := wb.sheets.map (fun s => s.1)

def distinctDataSheetCount (wb : Workbook) : Nat :=
  (((sheetNames wb).filter (fun n => n != "INDEX")).dedup).length

def indexSheetRows (wb : Workbook) : Nat :=
  match wb.sheets.getLast? with
  | some s => s.2.rows.length
  | none => 0

def sheetCell (wb : Workbook) (si ri ci : Nat) : Option OutCell :=
  (wb.sheets[si]?).bind (fun s => (s.2.rows[ri]?).bind (fun r => r[ci]?))

def strAt (r : List OutCell) (i : Nat) : String :=
  match r[i]? with
  | some (OutCell.str s) => s
  | _ => ""

def itemOf (r : List OutCell) : String := strAt r 0

def exceptOk : Except PdError Workbook → Bool
  | Except.ok _ => true
  | Except.error _ => false

/-- The whitespace-collapse invariant: no two adjacent whitespace characters. -/
def NoWsPair (a c : Char) : Prop := ¬(a.isWhitespace = true ∧ c.isWhitespace = true)

instance : DecidableEq (Except PdError Workbook) := fun a b =>
  match a, b with
  | Except.ok x, Except.ok y =>
    if h : x = y then Decidable.isTrue (by rw [h]) else Decidable.isFalse (by simp [h])
  | Except.error x, Except.error y =>
    if h : x = y then Decidable.isTrue (by rw [h]) else Decidable.isFalse (by simp [h])
  | Except.ok _, Except.error _ => Decidable.isFalse (by simp)
  | Except.error _, Except.ok _ => Decidable.isFalse (by simp)

/-! ## Concrete fixtures used by witnesses and counterexamples -/

/-- A mapping with the four required roles and no optional roles. -/
def mStd : Mapping := ⟨"Class", "Lesson", "Item", "Qty", none, none⟩

/-- The spec's sum-invariant example: quantities `"3"`, `"2"`, `"abc"`. -/
def tSum : Table := ⟨["Class", "Lesson", "Item", "Qty"],
  [[some "Math", some "L1", some "Pencil", some "3"],
   [some "Math", some "L1", some "Pencil", some "2"],
   [some "Math", some "L1", some "Pencil", some "abc"]]⟩

/-- One row whose class cell is null: zero groups survive cleaning. -/
def tNullClass : Table := ⟨["Class", "Lesson", "Item", "Qty"],
  [[none, some "B", some "x", some "5"]]⟩

def mReq : Mapping := ⟨"C", "L", "I", "Q", none, none⟩

/-- Two distinct classes `"A:"` and `"A-"` whose safe sheet names collide. -/
def tColl : Table := ⟨["C", "L", "I", "Q"],
  [[some "A:", some "B", some "x", some "1"],
   [some "A-", some "B", some "x", some "1"]]⟩

def tDup : Table := ⟨["C", "L", "Q"], [[some "a", some "b", some "1"]]⟩

/-- A mapping whose class and item roles name the same column. -/
def mDup : Mapping := ⟨"C", "L", "C", "Q", none, none⟩

/-- A group whose first row has a null size and whose second has `"Large"`. -/
def tFirst : Table := ⟨["C", "L", "I", "Q", "S"],
  [[some "a", some "b", some "x", some "1", none],
   [some "a", some "b", some "x", some "2", some "Large"]]⟩

def mSize : Mapping := ⟨"C", "L", "I", "Q", some "S", none⟩

/-- Size and unit mapped to the same header (permitted by the spec invariant). -/
def mSizeUom : Mapping := ⟨"C", "L", "I", "Q", some "S", some "S"⟩

/-! ## Generic facts about the insertion sort -/

theorem mem_insertB (le : α → α → Bool) (a x : α) (l : List α) :
    x ∈ insertB le a l ↔ x = a ∨ x ∈ l := by
  induction l with
  | nil => simp [insertB]
  | cons b bs ih =>
    simp only [insertB]
    split
    · simp [List.mem_cons]
    · simp only [List.mem_cons, ih]
      tauto

theorem length_insertB (le : α → α → Bool) (a : α) (l : List α) :
    (insertB le a l).length = l.length + 1 := by
  induction l with
  | nil => rfl
  | cons b bs ih =>
    simp only [insertB]
    split
    · rfl
    · simp [ih]

theorem length_sortByB (le : α → α → Bool) (l : List α) :
    (sortByB le l).length = l.length := by
  induction l with
  | nil => rfl
  | cons a as ih => simp [sortByB, length_insertB, ih]

theorem mem_sortByB (le : α → α → Bool) (x : α) (l : List α) :
    x ∈ sortByB le l ↔ x ∈ l := by
  induction l with
  | nil => simp [sortByB]
  | cons a as ih => simp [sortByB, mem_insertB, ih]

theorem pairwise_insertB (le : α → α → Bool)
    (htot : ∀ a b, le a b = true ∨ le b a = true)
    (htr : ∀ a b c, le a b = true → le b c = true → le a c = true)
    (a : α) (l : List α) (h : l.Pairwise (fun x y => le x y = true)) :
    (insertB le a l).Pairwise (fun x y => le x y = true) := by
  induction l with
  | nil => simp [insertB]
  | cons b bs ih =>
    rcases List.pairwise_cons.1 h with ⟨hb, hbs⟩
    simp only [insertB]
    split
    case isTrue hab =>
      refine List.pairwise_cons.2 ⟨?_, h⟩
      intro y hy
      rcases List.mem_cons.1 hy with rfl | hy
      · exact hab
      · exact htr _ _ _ hab (hb y hy)
    case isFalse hab =>
      have hba : le b a = true := by
        rcases htot a b with h1 | h1
        · exact absurd h1 hab
        · exact h1
      refine List.pairwise_cons.2 ⟨?_, ih hbs⟩
      intro y hy
      rcases (mem_insertB le a y bs).1 hy with rfl | hy
      · exact hba
      · exact hb y hy

theorem pairwise_sortByB (le : α → α → Bool)
    (htot : ∀ a b, le a b = true ∨ le b a = true)
    (htr : ∀ a b c, le a b = true → le b c = true → le a c = true)
    (l : List α) : (sortByB le l).Pairwise (fun x y => le x y = true) := by
  induction l with
  | nil => simp [sortByB]
  | cons a as ih => exact pairwise_insertB le htot htr a _ ih

/-! ## The concrete orders are total preorders -/

theorem charListLt_trans (as : List Char) : ∀ bs cs, charListLt as bs = true →
    charListLt bs cs = true → charListLt as cs = true := by
  induction as with
  | nil =>
    intro bs cs h1 h2
    cases bs with
    | nil => exact absurd h1 (by simp [charListLt])
    | cons b bs =>
      cases cs with
      | nil => exact absurd h2 (by simp [charListLt])
      | cons c cs => simp [charListLt]
  | cons a as ih =>
    intro bs cs h1 h2
    cases bs with
    | nil => exact absurd h1 (by simp [charListLt])
    | cons b bs =>
      cases cs with
      | nil => exact absurd h2 (by simp [charListLt])
      | cons c cs =>
        simp only [charListLt] at h1 h2 ⊢
        by_cases hab : a.toNat < b.toNat
        · rw [if_pos hab] at h1
          by_cases hbc : b.toNat < c.toNat
          · rw [if_pos (by omega)]
          · rw [if_neg hbc] at h2
            by_cases hcb : c.toNat < b.toNat
            · rw [if_pos hcb] at h2
              exact absurd h2 (by simp)
            · rw [if_pos (by omega)]
        · rw [if_neg hab] at h1
          by_cases hba : b.toNat < a.toNat
          · rw [if_pos hba] at h1
            exact absurd h1 (by simp)
          · rw [if_neg hba] at h1
            by_cases hbc : b.toNat < c.toNat
            · rw [if_pos hbc] at h2
              rw [if_pos (by omega)]
            · rw [if_neg hbc] at h2
              by_cases hcb : c.toNat < b.toNat
              · rw [if_pos hcb] at h2
                exact absurd h2 (by simp)
              · rw [if_neg hcb] at h2
                rw [if_neg (by omega), if_neg (by omega)]
                exact ih bs cs h1 h2

theorem charListLt_trichotomy (as : List Char) : ∀ bs,
    charListLt as bs = true ∨ as = bs ∨ charListLt bs as = true := by
  induction as with
  | nil =>
    intro bs
    cases bs with
    | nil => exact Or.inr (Or.inl rfl)
    | cons b bs => exact Or.inl (by simp [charListLt])
  | cons a as ih =>
    intro bs
    cases bs with
    | nil => exact Or.inr (Or.inr (by simp [charListLt]))
    | cons b bs =>
      rcases Nat.lt_trichotomy a.toNat b.toNat with h | h | h
      · refine Or.inl ?_
        simp only [charListLt]
        rw [if_pos h]
      · have hab : a = b := by
          have h1 : a = Char.ofNat a.toNat := (Char.ofNat_toNat a).symm
          rw [h1, h, Char.ofNat_toNat]
        subst hab
        rcases ih bs with h2 | h2 | h2
        · refine Or.inl ?_
          simp only [charListLt]
          rw [if_neg (by omega), if_neg (by omega)]
          exact h2
        · exact Or.inr (Or.inl (by rw [h2]))
        · refine Or.inr (Or.inr ?_)
          simp only [charListLt]
          rw [if_neg (by omega), if_neg (by omega)]
          exact h2
      · refine Or.inr (Or.inr ?_)
        simp only [charListLt]
        rw [if_pos h]

theorem strLt_trans (a b c : String) :
    strLt a b = true → strLt b c = true → strLt a c = true :=
  charListLt_trans a.data b.data c.data

theorem strLt_trichotomy (a b : String) : strLt a b = true ∨ a = b ∨ strLt b a = true := by
  rcases charListLt_trichotomy a.data b.data with h | h | h
  · exact Or.inl h
  · refine Or.inr (Or.inl ?_)
    cases a
    cases b
    exact congrArg String.mk h
  · exact Or.inr (Or.inr h)

theorem strLe_total (a b : String) : strLe a b = true ∨ strLe b a = true := by
  simp only [strLe, Bool.or_eq_true, beq_iff_eq]
  rcases strLt_trichotomy a b with h | h | h
  · exact Or.inl (Or.inl h)
  · exact Or.inl (Or.inr h)
  · exact Or.inr (Or.inl h)

theorem strLe_trans (a b c : String) :
    strLe a b = true → strLe b c = true → strLe a c = true := by
  simp only [strLe, Bool.or_eq_true, beq_iff_eq]
  rintro (h1 | h1) (h2 | h2)
  · exact Or.inl (strLt_trans a b c h1 h2)
  · exact Or.inl (h2 ▸ h1)
  · exact Or.inl (h1 ▸ h2)
  · exact Or.inr (h1.trans h2)

theorem lexSB_total (le : β → β → Bool)
    (h : ∀ x y, le x y = true ∨ le y x = true) (a b : String × β) :
    lexSB le a b = true ∨ lexSB le b a = true := by
  simp only [lexSB, Bool.or_eq_true, Bool.and_eq_true, beq_iff_eq]
  rcases strLt_trichotomy a.1 b.1 with h1 | h1 | h1
  · exact Or.inl (Or.inl h1)
  · rcases h a.2 b.2 with h2 | h2
    · exact Or.inl (Or.inr ⟨h1, h2⟩)
    · exact Or.inr (Or.inr ⟨h1.symm, h2⟩)
  · exact Or.inr (Or.inl h1)

theorem lexSB_trans (le : β → β → Bool)
    (htr : ∀ x y z, le x y = true → le y z = true → le x z = true) (a b c : String × β) :
    lexSB le a b = true → lexSB le b c = true → lexSB le a c = true := by
  simp only [lexSB, Bool.or_eq_true, Bool.and_eq_true, beq_iff_eq]
  rintro (h1 | ⟨h1, h1'⟩) (h2 | ⟨h2, h2'⟩)
  · exact Or.inl (strLt_trans _ _ _ h1 h2)
  · exact Or.inl (h2 ▸ h1)
  · exact Or.inl (h1 ▸ h2)
  · exact Or.inr ⟨h1.trans h2, htr _ _ _ h1' h2'⟩

theorem pairLe_total (a b : String × String) : pairLe a b = true ∨ pairLe b a = true :=
  lexSB_total strLe strLe_total a b

theorem pairLe_trans (a b c : String × String) :
    pairLe a b = true → pairLe b c = true → pairLe a c = true :=
  lexSB_trans strLe strLe_trans a b c

theorem keyLe_total (a b : Key) : keyLe a b = true ∨ keyLe b a = true :=
  lexSB_total pairLe pairLe_total a b

theorem keyLe_trans (a b c : Key) :
    keyLe a b = true → keyLe b c = true → keyLe a c = true :=
  lexSB_trans pairLe pairLe_trans a b c

theorem itemLe_total (a b : Key) : itemLe a b = true ∨ itemLe b a = true :=
  strLe_total a.2.2 b.2.2

theorem itemLe_trans (a b c : Key) :
    itemLe a b = true → itemLe b c = true → itemLe a c = true :=
  strLe_trans a.2.2 b.2.2 c.2.2

theorem idxLe_total (a b : IndexEntry) : idxLe a b = true ∨ idxLe b a = true :=
  pairLe_total (a.cls, a.les) (b.cls, b.les)

theorem idxLe_trans (a b c : IndexEntry) :
    idxLe a b = true → idxLe b c = true → idxLe a c = true :=
  pairLe_trans (a.cls, a.les) (b.cls, b.les) (c.cls, c.les)

/-! ## First-match characterization of `find?` and `findSome?` -/

theorem find?_some_spec (p : α → Bool) (l : List α) (a : α) (h : l.find? p = some a) :
    p a = true ∧ ∃ j : Nat, l[j]? = some a ∧
      ∀ (i : Nat) (b : α), i < j → l[i]? = some b → p b = false := by
  induction l with
  | nil => simp at h
  | cons x xs ih =>
    by_cases hx : p x = true
    · rw [List.find?_cons_of_pos _ hx] at h
      obtain rfl : x = a := by simpa using h
      exact ⟨hx, 0, by simp, fun i b hi => absurd hi (Nat.not_lt_zero i)⟩
    · rw [List.find?_cons_of_neg _ (by simpa using hx)] at h
      obtain ⟨hpa, j, hj, hmin⟩ := ih h
      refine ⟨hpa, j + 1, by simpa using hj, ?_⟩
      intro i b hi hib
      match i with
      | 0 =>
        obtain rfl : x = b := by simpa using hib
        simpa using hx
      | i + 1 =>
        exact hmin i b (Nat.lt_of_succ_lt_succ hi) (by simpa using hib)

/-- C6: for every header list and ordered list of normalized candidate phrases,
`guess_col` iterates phrases in priority order and, for each phrase, headers in
their given order, returning the first header whose normalized form contains
the phrase as a substring — a lower-priority phrase matching an earlier header
never beats a higher-priority phrase matching a later header — and returns
`none` exactly when no phrase is a substring of any normalized header. -/
theorem guess_col_first_match (cols cands : List String) :
    (guess_col cols cands = none ↔
      ∀ ph ∈ cands, ∀ c ∈ cols, containsSub (normalize c) ph = false)
    ∧ ∀ hcol : String, guess_col cols cands = some hcol →
        ∃ (i j : Nat) (ph : String), cands[i]? = some ph ∧ cols[j]? = some hcol ∧
          containsSub (normalize hcol) ph = true ∧
          (∀ (i' : Nat) (ph' : String), i' < i → cands[i']? = some ph' →
            ∀ c ∈ cols, containsSub (normalize c) ph' = false) ∧
          (∀ (j' : Nat) (c' : String), j' < j → cols[j']? = some c' →
            containsSub (normalize c') ph = false) := by
  constructor
  · simp only [guess_col, List.findSome?_eq_none_iff, List.find?_eq_none, Bool.not_eq_true]
  · intro hcol
    induction cands with
    | nil =>
      intro h
      simp [guess_col] at h
    | cons ph rest ih =>
      intro h
      cases hf : cols.find? (fun c => containsSub (normalize c) ph) with
      | some c =>
        have hstep : guess_col cols (ph :: rest) = some c := by
          simp only [guess_col, List.findSome?_cons, hf]
        obtain rfl : c = hcol := by
          have := hstep.symm.trans h
          simpa using this
        obtain ⟨hp, j, hj, hjmin⟩ := find?_some_spec _ _ _ hf
        exact ⟨0, j, ph, by simp, hj, hp,
          fun i' ph' hi' => absurd hi' (Nat.not_lt_zero i'), hjmin⟩
      | none =>
        have hstep : guess_col cols (ph :: rest) = guess_col cols rest := by
          simp only [guess_col, List.findSome?_cons, hf]
        obtain ⟨i, j, ph', h1, h2, h3, h4, h5⟩ := ih (hstep.symm.trans h)
        refine ⟨i + 1, j, ph', by simpa using h1, h2, h3, ?_, h5⟩
        intro i' phx hi' hidx c hc
        match i' with
        | 0 =>
          obtain rfl : ph = phx := by simpa using hidx
          have := List.find?_eq_none.1 hf c hc
          simpa using this
        | i' + 1 =>
          exact h4 i' phx (Nat.lt_of_succ_lt_succ hi') (by simpa using hidx) c hc

/-- Witness for C6 at a concrete input: on headers `["AB", "CD"]` with phrases
`["zz", "cd"]`, the match is the second phrase against the second header. -/
theorem guess_col_first_match_witness :
    ∃ (i j : Nat) (ph : String), (["zz", "cd"] : List String)[i]? = some ph ∧
      (["AB", "CD"] : List String)[j]? = some "CD" ∧
      containsSub (normalize "CD") ph = true ∧
      (∀ (i' : Nat) (ph' : String), i' < i → (["zz", "cd"] : List String)[i']? = some ph' →
        ∀ c ∈ (["AB", "CD"] : List String), containsSub (normalize c) ph' = false) ∧
      (∀ (j' : Nat) (c' : String), j' < j → (["AB", "CD"] : List String)[j']? = some c' →
        containsSub (normalize c') ph = false) :=
  (guess_col_first_match ["AB", "CD"] ["zz", "cd"]).2 "CD" (by decide)

/-! ## Character-level facts about `Char.toLower` and whitespace -/

theorem toNat_ofNat_valid (n : Nat) (h : n.isValidChar) : (Char.ofNat n).toNat = n := by
  rw [Char.ofNat, dif_pos h]
  rfl

theorem toLower_eq_of_not_upper (c : Char) (h : ¬(c.toNat ≥ 65 ∧ c.toNat ≤ 90)) :
    c.toLower = c := by
  simp only [Char.toLower]
  rw [if_neg h]

theorem toLower_toNat_of_upper (c : Char) (h : c.toNat ≥ 65 ∧ c.toNat ≤ 90) :
    c.toLower.toNat = c.toNat + 32 := by
  simp only [Char.toLower]
  rw [if_pos h]
  exact toNat_ofNat_valid _ (Or.inl (by omega))

theorem toLower_idem (c : Char) : c.toLower.toLower = c.toLower := by
  by_cases h : c.toNat ≥ 65 ∧ c.toNat ≤ 90
  · have h1 := toLower_toNat_of_upper c h
    apply toLower_eq_of_not_upper
    rw [h1]
    omega
  · rw [toLower_eq_of_not_upper c h, toLower_eq_of_not_upper c h]

theorem ws_char_cases (c : Char) (h : c.isWhitespace = true) :
    c = ' ' ∨ c = '\t' ∨ c = '\r' ∨ c = '\n' := by
  have h' := h
  simp only [Char.isWhitespace, Bool.or_eq_true, decide_eq_true_eq] at h'
  tauto

theorem ws_toNat (c : Char) (h : c.isWhitespace = true) :
    c.toNat = 32 ∨ c.toNat = 9 ∨ c.toNat = 13 ∨ c.toNat = 10 := by
  rcases ws_char_cases c h with rfl | rfl | rfl | rfl <;> decide

theorem toLower_ws (c : Char) : c.toLower.isWhitespace = c.isWhitespace := by
  by_cases h : c.toNat ≥ 65 ∧ c.toNat ≤ 90
  · have h1 := toLower_toNat_of_upper c h
    have lhs : c.toLower.isWhitespace = false := by
      cases hh : c.toLower.isWhitespace
      · rfl
      · rcases ws_toNat _ hh with h2 | h2 | h2 | h2 <;> rw [h1] at h2 <;> omega
    have rhs : c.isWhitespace = false := by
      cases hh : c.isWhitespace
      · rfl
      · rcases ws_toNat _ hh with h2 | h2 | h2 | h2 <;> omega
    rw [lhs, rhs]
  · rw [toLower_eq_of_not_upper c h]

/-! ## Structure of `collapseAux` output -/

theorem collapseAux_mem_ws (b : Bool) (l : List Char) :
    ∀ c ∈ collapseAux b l, c.isWhitespace = true → c = ' ' := by
  induction l generalizing b with
  | nil => simp [collapseAux]
  | cons x xs ih =>
    intro c hc hw
    simp only [collapseAux] at hc
    split at hc
    · split at hc
      · exact ih true c hc hw
      · rcases List.mem_cons.1 hc with rfl | hc
        · rfl
        · exact ih true c hc hw
    · rcases List.mem_cons.1 hc with rfl | hc
      · rename_i hx
        exact absurd hw hx
      · exact ih false c hc hw

theorem collapseAux_true_head (l : List Char) :
    ∀ c, (collapseAux true l).head? = some c → c.isWhitespace = false := by
  induction l with
  | nil =>
    intro c h
    simp [collapseAux] at h
  | cons x xs ih =>
    intro c h
    simp only [collapseAux] at h
    split at h
    · rw [if_pos trivial] at h
      exact ih c h
    · rename_i hx
      obtain rfl : x = c := by simpa using h
      cases hxx : x.isWhitespace
      · rfl
      · exact absurd hxx hx

theorem collapseAux_chain (l : List Char) :
    ∀ b, (collapseAux b l).Chain' NoWsPair := by
  induction l with
  | nil =>
    intro b
    simp [collapseAux]
  | cons x xs ih =>
    intro b
    simp only [collapseAux]
    split
    · split
      · exact ih true
      · refine List.chain'_cons'.2 ⟨?_, ih true⟩
        intro y hy
        have hyw := collapseAux_true_head xs y hy
        exact fun hcon => by rw [hyw] at hcon; exact Bool.noConfusion hcon.2
    · rename_i hx
      refine List.chain'_cons'.2 ⟨?_, ih false⟩
      intro y hy
      exact fun hcon => hx hcon.1

theorem collapseAux_fix (l : List Char)
    (hall : ∀ c ∈ l, c.isWhitespace = true → c = ' ')
    (hch : l.Chain' NoWsPair) :
    collapseAux false l = l ∧
      ((∀ c ∈ l.head?, c.isWhitespace = false) → collapseAux true l = l) := by
  induction l with
  | nil => simp [collapseAux]
  | cons x xs ih =>
    have hall' : ∀ c ∈ xs, c.isWhitespace = true → c = ' ' :=
      fun c hc => hall c (List.mem_cons_of_mem _ hc)
    obtain ⟨ihf, iht⟩ := ih hall' hch.tail
    by_cases hx : x.isWhitespace = true
    · have hx' : x = ' ' := hall x (List.mem_cons_self x xs) hx
      have hxs : ∀ c ∈ xs.head?, c.isWhitespace = false := by
        intro c hc
        have hrel := (List.chain'_cons'.1 hch).1 c hc
        cases hcc : c.isWhitespace
        · rfl
        · exact absurd ⟨hx, hcc⟩ hrel
      constructor
      · simp only [collapseAux]
        rw [if_pos hx, if_neg Bool.false_ne_true, iht hxs, hx']
      · intro hhead
        have h0 := hhead x (by simp)
        rw [hx] at h0
        exact Bool.noConfusion h0
    · have hxb : x.isWhitespace = false := by
        cases hxx : x.isWhitespace
        · rfl
        · exact absurd hxx hx
      constructor
      · simp only [collapseAux]
        rw [if_neg hx, ihf]
      · intro _
        simp only [collapseAux]
        rw [if_neg hx, ihf]

/-! ## Structure of `stripList` output -/

theorem mem_dropWhile_of_not (p : α → Bool) (l : List α) (a : α)
    (ha : a ∈ l) (hpa : p a = false) : a ∈ l.dropWhile p := by
  induction l with
  | nil => cases ha
  | cons x xs ih =>
    rw [List.dropWhile_cons]
    split
    · rcases List.mem_cons.1 ha with rfl | ha'
      · rename_i hx
        rw [hpa] at hx
        exact Bool.noConfusion hx
      · exact ih ha'
    · exact ha

theorem stripList_mem (l : List Char) (c : Char) (hc : c ∈ stripList l) : c ∈ l := by
  unfold stripList at hc
  have hc1 := List.mem_reverse.1 hc
  have hc2 := (List.dropWhile_suffix Char.isWhitespace).sublist.subset hc1
  have hc3 := List.mem_reverse.1 hc2
  exact (List.dropWhile_suffix Char.isWhitespace).sublist.subset hc3

theorem chain'_dropWhile (R : α → α → Prop) (p : α → Bool) (l : List α)
    (h : l.Chain' R) : (l.dropWhile p).Chain' R := by
  induction l with
  | nil => exact h
  | cons x xs ih =>
    rw [List.dropWhile_cons]
    split
    · exact ih h.tail
    · exact h

theorem stripList_chain (R : Char → Char → Prop) (l : List Char)
    (h : l.Chain' R) : (stripList l).Chain' R := by
  unfold stripList
  have h1 : (l.dropWhile Char.isWhitespace).Chain' R := chain'_dropWhile R _ l h
  have h2 : ((l.dropWhile Char.isWhitespace).reverse).Chain' (flip R) :=
    (List.chain'_reverse).2 h1
  have h3 := chain'_dropWhile (flip R) Char.isWhitespace _ h2
  exact (List.chain'_reverse).2 h3

theorem stripList_head (l : List Char) (c : Char)
    (h : (stripList l).head? = some c) : c.isWhitespace = false := by
  unfold stripList at h
  rw [List.head?_reverse] at h
  have hsuf : ((l.dropWhile Char.isWhitespace).reverse.dropWhile Char.isWhitespace)
      <:+ (l.dropWhile Char.isWhitespace).reverse := List.dropWhile_suffix Char.isWhitespace
  obtain ⟨t, ht⟩ := hsuf
  have hw : ((l.dropWhile Char.isWhitespace).reverse).getLast? = some c := by
    rw [← ht, List.getLast?_append, h]
    rfl
  rw [List.getLast?_reverse] at hw
  have hh := List.head?_dropWhile_not Char.isWhitespace l
  rw [hw] at hh
  exact hh

theorem stripList_last (l : List Char) (c : Char)
    (h : (stripList l).getLast? = some c) : c.isWhitespace = false := by
  unfold stripList at h
  rw [List.getLast?_reverse] at h
  have hh := List.head?_dropWhile_not Char.isWhitespace
    ((l.dropWhile Char.isWhitespace).reverse)
  rw [h] at hh
  exact hh

theorem dropWhile_fix (p : α → Bool) (l : List α)
    (h : ∀ c ∈ l.head?, p c = false) : l.dropWhile p = l := by
  cases l with
  | nil => rfl
  | cons x xs =>
    have hx := h x (by simp)
    rw [List.dropWhile_cons, if_neg (by simp [hx])]

theorem stripList_fix (l : List Char)
    (h1 : ∀ c ∈ l.head?, c.isWhitespace = false)
    (h2 : ∀ c ∈ l.getLast?, c.isWhitespace = false) :
    stripList l = l := by
  unfold stripList
  rw [dropWhile_fix _ _ h1]
  have h2' : ∀ c ∈ l.reverse.head?, c.isWhitespace = false := by
    intro c hc
    rw [List.head?_reverse] at hc
    exact h2 c hc
  rw [dropWhile_fix _ _ h2', List.reverse_reverse]

/-- C10: `normalize` is idempotent: applying whitespace collapsing, trimming,
and lowercasing a second time leaves the result unchanged. -/
theorem normalize_idem (s : String) : normalize (normalize s) = normalize s := by
  have hmk : normalize s = ⟨(stripList (collapseAux false s.data)).map Char.toLower⟩ := rfl
  set t0 := stripList (collapseAux false s.data) with ht0
  set t := t0.map Char.toLower with ht
  have hall : ∀ c ∈ t, c.isWhitespace = true → c = ' ' := by
    intro c hc hw
    obtain ⟨d, hd, rfl⟩ := List.mem_map.1 hc
    have hdws : d.isWhitespace = true := by rw [← toLower_ws d]; exact hw
    have hd' : d = ' ' := collapseAux_mem_ws false _ d (stripList_mem _ d hd) hdws
    rw [hd']
    decide
  have hch : t.Chain' NoWsPair := by
    rw [ht, List.chain'_map]
    refine List.Chain'.imp ?_ (stripList_chain NoWsPair _ (collapseAux_chain s.data false))
    intro a b hab
    unfold NoWsPair at *
    rw [toLower_ws, toLower_ws]
    exact hab
  have hhead : ∀ c ∈ t.head?, c.isWhitespace = false := by
    intro c hc
    rw [ht, List.head?_map] at hc
    obtain ⟨d, hd, rfl⟩ := Option.map_eq_some'.1 hc
    rw [toLower_ws]
    exact stripList_head _ d hd
  have hlast : ∀ c ∈ t.getLast?, c.isWhitespace = false := by
    intro c hc
    rw [ht, List.getLast?_map] at hc
    obtain ⟨d, hd, rfl⟩ := Option.map_eq_some'.1 hc
    rw [toLower_ws]
    exact stripList_last _ d hd
  have hfixc : ∀ c ∈ t, Char.toLower c = c := by
    intro c hc
    obtain ⟨d, _, rfl⟩ := List.mem_map.1 hc
    exact toLower_idem d
  rw [hmk]
  show (⟨(stripList (collapseAux false t)).map Char.toLower⟩ : String) = ⟨t⟩
  rw [(collapseAux_fix t hall hch).1, stripList_fix t hhead hlast,
    List.map_congr_left hfixc, List.map_id']

/-! ## Properties of `safe_sheet_name` -/

theorem mem_stripList_of_not_ws (l : List Char) (c : Char) (hc : c ∈ l)
    (hw : c.isWhitespace = false) : c ∈ stripList l := by
  unfold stripList
  rw [List.mem_reverse]
  apply mem_dropWhile_of_not _ _ _ _ hw
  rw [List.mem_reverse]
  exact mem_dropWhile_of_not _ _ _ hc hw

/-- C9: `safe_sheet_name` replaces each forbidden character (`: \ / ? * [ ]`)
with `-`, trims surrounding whitespace, substitutes the literal `"Sheet"` when
the result is empty, and returns a string of at most 31 characters; in
particular class `"Art: Intro"` with lesson `"Unit 1/2"` yields the sheet name
`"Art- Intro - Unit 1-2"`. -/
theorem safe_sheet_name_spec :
    (∀ s : String, (safe_sheet_name s).length ≤ 31) ∧
    (∀ (s : String) (c : Char), c ∈ (safe_sheet_name s).data → c ∉ forbiddenChars) ∧
    (∀ s : String, stripList (s.data.map replChar) = [] → safe_sheet_name s = "Sheet") ∧
    sheetName ("Art: Intro", "Unit 1/2") = "Art- Intro - Unit 1-2" ∧
    safe_sheet_name "  ab  " = "ab" := by
  refine ⟨?_, ?_, ?_, by decide, by decide⟩
  · intro s
    show ((if (stripList (s.data.map replChar)).isEmpty then "Sheet".data
      else stripList (s.data.map replChar)).take 31).length ≤ 31
    rw [List.length_take]
    omega
  · intro s c hc
    have hc2 : c ∈ (if (stripList (s.data.map replChar)).isEmpty then "Sheet".data
        else stripList (s.data.map replChar)) := List.take_subset _ _ hc
    split at hc2
    · have hS : ∀ x ∈ ("Sheet".data : List Char), x ∉ forbiddenChars := by decide
      exact hS c hc2
    · obtain ⟨d, _, rfl⟩ := List.mem_map.1 (stripList_mem _ c hc2)
      unfold replChar
      split
      · decide
      · rename_i hdf
        exact hdf
  · intro s h0
    show (⟨(if (stripList (s.data.map replChar)).isEmpty then "Sheet".data
      else stripList (s.data.map replChar)).take 31⟩ : String) = "Sheet"
    rw [h0]
    decide

/-- Witness for C9: the fallback clause applied at the all-whitespace input. -/
theorem safe_sheet_name_spec_witness :
    safe_sheet_name "  " = "Sheet" ∧ (safe_sheet_name "x").length ≤ 31 :=
  ⟨safe_sheet_name_spec.2.2.1 "  " (by decide), safe_sheet_name_spec.1 "x"⟩

/-- A generated data-sheet name always contains the `-` of the
`"(class) - (lesson)"` separator (never replaced, never stripped), or is the
fallback `"Sheet"`; either way it is never the five-character string `"INDEX"`,
which contains no `-`. -/
theorem sheetName_ne_INDEX (p : String × String) : sheetName p ≠ "INDEX" := by
  have hform : sheetName p =
      ⟨(if (stripList ((p.1 ++ " - " ++ p.2).data.map replChar)).isEmpty then "Sheet".data
        else stripList ((p.1 ++ " - " ++ p.2).data.map replChar)).take 31⟩ := rfl
  intro h
  have hdata : (if (stripList ((p.1 ++ " - " ++ p.2).data.map replChar)).isEmpty then
      "Sheet".data else stripList ((p.1 ++ " - " ++ p.2).data.map replChar)).take 31
      = "INDEX".data :=
    congrArg String.data (hform.symm.trans h)
  have hdash : '-' ∈ stripList ((p.1 ++ " - " ++ p.2).data.map replChar) := by
    apply mem_stripList_of_not_ws
    · rw [String.data_append, String.data_append, List.map_append, List.map_append]
      refine List.mem_append.2 (Or.inl (List.mem_append.2 (Or.inr ?_)))
      decide
    · decide
  by_cases he : (stripList ((p.1 ++ " - " ++ p.2).data.map replChar)).isEmpty
  · rw [if_pos he] at hdata
    exact absurd hdata (by decide)
  · rw [if_neg he] at hdata
    by_cases hlen : (stripList ((p.1 ++ " - " ++ p.2).data.map replChar)).length ≤ 31
    · rw [List.take_of_length_le hlen] at hdata
      rw [hdata] at hdash
      exact absurd hdash (by decide)
    · have hl : ((stripList ((p.1 ++ " - " ++ p.2).data.map replChar)).take 31).length = 31 := by
        rw [List.length_take]
        omega
      rw [hdata] at hl
      exact absurd hl (by decide)

/-! ## Consequences of a valid mapping -/

theorem valid_neqs (m : Mapping) (h : validMapping m = true) :
    m.classCol ≠ m.lessonCol ∧ m.classCol ≠ m.itemCol ∧ m.classCol ≠ m.qtyCol ∧
    m.lessonCol ≠ m.itemCol ∧ m.lessonCol ≠ m.qtyCol ∧ m.itemCol ≠ m.qtyCol := by
  simp only [validMapping, Bool.and_eq_true, bne_iff_ne, ne_eq] at h
  tauto

theorem valid_opt_size (m : Mapping) (h : validMapping m = true) (s : String)
    (hs : m.sizeCol = some s) : s ∉ requiredCols m := by
  simp only [validMapping, Bool.and_eq_true] at h
  have h2 := h.1.2
  rw [hs] at h2
  simpa using h2

theorem valid_opt_uom (m : Mapping) (h : validMapping m = true) (u : String)
    (hu : m.uomCol = some u) : u ∉ requiredCols m := by
  simp only [validMapping, Bool.and_eq_true] at h
  have h2 := h.2
  rw [hu] at h2
  simpa using h2

theorem activeOpt_some (hd : List String) (oc : Option String) (s : String)
    (h : activeOpt hd oc = some s) : oc = some s ∧ s ≠ "" ∧ s ∈ hd := by
  cases oc with
  | none => exact Option.noConfusion h
  | some x =>
    simp only [activeOpt] at h
    by_cases hc : x ≠ "" ∧ x ∈ hd
    · rw [if_pos hc] at h
      obtain rfl : x = s := Option.some.inj h
      exact ⟨rfl, hc.1, hc.2⟩
    · rw [if_neg hc] at h
      exact Option.noConfusion h

/-! ## The shape of the aggregation dict under a valid mapping -/

theorem aggDict_shape (hd : List String) (m : Mapping) (hv : validMapping m = true) :
    aggDict hd m = (m.qtyCol, AggKind.sum) ::
      optFirstList (activeOpt hd m.sizeCol) (activeOpt hd m.uomCol) := by
  unfold aggDict
  cases hs : activeOpt hd m.sizeCol with
  | none =>
    cases hu : activeOpt hd m.uomCol with
    | none => rfl
    | some u =>
      have hune : u ≠ m.qtyCol := by
        intro he
        exact valid_opt_uom m hv u (activeOpt_some hd _ u hu).1 (he ▸ by simp [requiredCols])
      have hqu : (m.qtyCol == u) = false := beq_eq_false_iff_ne.2 (Ne.symm hune)
      simp [dictInsert, optFirstList, hqu]
  | some s =>
    have hsne : s ≠ m.qtyCol := by
      intro he
      exact valid_opt_size m hv s (activeOpt_some hd _ s hs).1 (he ▸ by simp [requiredCols])
    have hqs : (m.qtyCol == s) = false := beq_eq_false_iff_ne.2 (Ne.symm hsne)
    cases hu : activeOpt hd m.uomCol with
    | none => simp [dictInsert, optFirstList, hqs]
    | some u =>
      have hune : u ≠ m.qtyCol := by
        intro he
        exact valid_opt_uom m hv u (activeOpt_some hd _ u hu).1 (he ▸ by simp [requiredCols])
      have hqu : (m.qtyCol == u) = false := beq_eq_false_iff_ne.2 (Ne.symm hune)
      by_cases hsu : s = u
      · subst hsu
        have hqs' : m.qtyCol ≠ s := Ne.symm hsne
        simp [dictInsert, optFirstList, hqs, hqs']
      · have hsu' : (s == u) = false := beq_eq_false_iff_ne.2 hsu
        simp [dictInsert, optFirstList, hqs, hqu, hsu', hsu]

/-! ## Values of `df2` columns under a valid mapping -/

theorem df2Val_qty (hd : List String) (m : Mapping) (cleaned : List (List Cell)) (k : Key)
    (hv : validMapping m = true) :
    df2Val hd m cleaned k m.qtyCol = OutCell.num (aggQty hd m cleaned k) := by
  obtain ⟨h1, h2, h3, h4, h5, h6⟩ := valid_neqs m hv
  unfold df2Val
  rw [if_neg (fun he => h3 he.symm), if_neg (fun he => h5 he.symm),
    if_neg (fun he => h6 he.symm), aggDict_shape hd m hv,
    List.find?_cons_of_pos _ (by simp)]

theorem df2Val_item (hd : List String) (m : Mapping) (cleaned : List (List Cell)) (k : Key)
    (hv : validMapping m = true) :
    df2Val hd m cleaned k m.itemCol = OutCell.str k.2.2 := by
  obtain ⟨h1, h2, h3, h4, h5, h6⟩ := valid_neqs m hv
  unfold df2Val
  rw [if_neg (fun he => h2 he.symm), if_neg (fun he => h4 he.symm), if_pos rfl]

theorem df2Val_first (hd : List String) (m : Mapping) (cleaned : List (List Cell)) (k : Key)
    (hv : validMapping m = true) (col : String)
    (hcol : activeOpt hd m.sizeCol = some col ∨ activeOpt hd m.uomCol = some col) :
    df2Val hd m cleaned k col = cellToOut (aggFirstVal hd m cleaned col k) := by
  have hraw : col ∉ requiredCols m := by
    rcases hcol with h | h
    · exact valid_opt_size m hv col (activeOpt_some hd _ col h).1
    · exact valid_opt_uom m hv col (activeOpt_some hd _ col h).1
  have hnc : col ≠ m.classCol := fun he => hraw (he ▸ by simp [requiredCols])
  have hnl : col ≠ m.lessonCol := fun he => hraw (he ▸ by simp [requiredCols])
  have hni : col ≠ m.itemCol := fun he => hraw (he ▸ by simp [requiredCols])
  have hnq : col ≠ m.qtyCol := fun he => hraw (he ▸ by simp [requiredCols])
  unfold df2Val
  rw [if_neg hnc, if_neg hnl, if_neg hni, aggDict_shape hd m hv,
    List.find?_cons_of_neg _ (by simp [Ne.symm hnq])]
  cases hs : activeOpt hd m.sizeCol with
  | none =>
    cases hu : activeOpt hd m.uomCol with
    | none =>
      rw [hs, hu] at hcol
      rcases hcol with h | h <;> exact Option.noConfusion h
    | some u =>
      obtain rfl : u = col := by
        rw [hs, hu] at hcol
        rcases hcol with h | h
        · exact Option.noConfusion h
        · simpa using h
      simp only [optFirstList]
      rw [List.find?_cons_of_pos _ (by simp)]
  | some s =>
    cases hu : activeOpt hd m.uomCol with
    | none =>
      obtain rfl : s = col := by
        rw [hs, hu] at hcol
        rcases hcol with h | h
        · simpa using h
        · exact Option.noConfusion h
      simp only [optFirstList]
      rw [List.find?_cons_of_pos _ (by simp)]
    | some u =>
      have hcol' : s = col ∨ u = col := by
        rw [hs, hu] at hcol
        rcases hcol with h | h
        · exact Or.inl (by simpa using h)
        · exact Or.inr (by simpa using h)
      simp only [optFirstList]
      by_cases hsu : s = u
      · subst hsu
        rw [if_pos rfl]
        obtain rfl : s = col := by tauto
        rw [List.find?_cons_of_pos _ (by simp)]
      · rw [if_neg hsu]
        rcases hcol' with rfl | rfl
        · rw [List.find?_cons_of_pos _ (by simp)]
        · rw [List.find?_cons_of_neg _ (by simp [hsu]),
            List.find?_cons_of_pos _ (by simp)]

/-! ## Rename labels under a valid mapping -/

theorem renameLabel_item (m : Mapping) (hv : validMapping m = true) :
    renameLabel m m.itemCol = "Item" := by
  obtain ⟨h1, h2, h3, h4, h5, h6⟩ := valid_neqs m hv
  unfold renameLabel
  rw [if_neg (fun he => valid_opt_uom m hv m.itemCol he (by simp [requiredCols])),
    if_neg (fun he => valid_opt_size m hv m.itemCol he (by simp [requiredCols])),
    if_neg h6, if_pos rfl]

theorem renameLabel_qty (m : Mapping) (hv : validMapping m = true) :
    renameLabel m m.qtyCol = "Quantity" := by
  unfold renameLabel
  rw [if_neg (fun he => valid_opt_uom m hv m.qtyCol he (by simp [requiredCols])),
    if_neg (fun he => valid_opt_size m hv m.qtyCol he (by simp [requiredCols])),
    if_pos rfl]

/-! ## Rows of the data sheets -/

theorem rowFor_item (hd : List String) (m : Mapping) (cleaned : List (List Cell)) (k : Key)
    (hv : validMapping m = true) :
    (rowFor hd m cleaned k)[0]? = some (OutCell.str k.2.2) := by
  unfold rowFor
  rw [List.getElem?_map, show (outCols hd m)[0]? = some m.itemCol by simp [outCols]]
  simp [df2Val_item hd m cleaned k hv]

theorem rowFor_qty (hd : List String) (m : Mapping) (cleaned : List (List Cell)) (k : Key)
    (hv : validMapping m = true) :
    (rowFor hd m cleaned k)[1]? = some (OutCell.num (aggQty hd m cleaned k)) := by
  unfold rowFor
  rw [List.getElem?_map, show (outCols hd m)[1]? = some m.qtyCol by simp [outCols]]
  simp [df2Val_qty hd m cleaned k hv]

theorem itemOf_rowFor (hd : List String) (m : Mapping) (cleaned : List (List Cell)) (k : Key)
    (hv : validMapping m = true) : itemOf (rowFor hd m cleaned k) = k.2.2 := by
  unfold itemOf strAt
  rw [rowFor_item hd m cleaned k hv]

/-! ## `findSome?` is the head of `filterMap` -/

theorem findSome?_eq_head_filterMap (f : α → Option β) (l : List α) :
    l.findSome? f = (l.filterMap f).head? := by
  induction l with
  | nil => rfl
  | cons x xs ih =>
    cases hx : f x with
    | none =>
      rw [List.findSome?_cons, List.filterMap_cons, hx]
      exact ih
    | some b =>
      rw [List.findSome?_cons, List.filterMap_cons, hx]
      rfl

/-! ## Success and failure characterizations of `make_output_excel` -/

theorem sortByB_eq_nil (le : α → α → Bool) (l : List α) : sortByB le l = [] ↔ l = [] := by
  constructor
  · intro h
    have hl := length_sortByB le l
    rw [h] at hl
    exact List.length_eq_zero.1 hl.symm
  · intro h
    rw [h]
    rfl

theorem pairsOf_eq_nil (hd : List String) (m : Mapping) (cleaned : List (List Cell))
    (h : pairsOf hd m cleaned = []) : cleaned = [] := by
  unfold pairsOf at h
  have h1 := List.map_eq_nil_iff.1 ((List.dedup_eq_nil _).1 h)
  have h2 := (sortByB_eq_nil _ _).1 h1
  unfold keysOf at h1
  have h3 := (List.dedup_eq_nil _).1 ((sortByB_eq_nil _ _).1 h1)
  exact List.map_eq_nil_iff.1 h3

theorem make_output_eq_ok (t : Table) (m : Mapping)
    (h1 : m.classCol ∈ t.headers) (h2 : m.lessonCol ∈ t.headers)
    (h3 : m.itemCol ∈ t.headers) (h4 : m.qtyCol ∈ t.headers)
    (h5 : (aggDict t.headers m).any (fun p => (groupCols m).contains p.1) = false)
    (h6 : (groupCols m).Nodup)
    (h7 : pairsOf t.headers m (cleanRows t m) ≠ []) :
    make_output_excel t m = Except.ok (assembleWB t.headers m (cleanRows t m)) := by
  simp only [make_output_excel]
  rw [if_neg (not_not_intro h1), if_neg (not_not_intro h2), if_neg (not_not_intro h3),
    if_neg (not_not_intro h4), if_neg (by rw [h5]; decide), if_neg (not_not_intro h6),
    if_neg h7]

theorem make_output_ok_inv (t : Table) (m : Mapping) (wb : Workbook)
    (h : make_output_excel t m = Except.ok wb) :
    wb = assembleWB t.headers m (cleanRows t m) ∧
      pairsOf t.headers m (cleanRows t m) ≠ [] := by
  simp only [make_output_excel] at h
  repeat' split at h
  all_goals try exact Except.noConfusion h
  rename_i hp
  injection h with h2
  exact ⟨h2.symm, hp⟩

/-- C1: for every table and valid mapping, aggregation groups cleaned rows by
the exact (class, lesson, item) triple, and the Quantity emitted into each data
sheet row equals the arithmetic sum of the coerced quantities of all cleaned
rows sharing that triple; an unparseable quantity contributes zero. -/
theorem quantity_sum_invariant (t : Table) (m : Mapping) (hv : validMapping m = true) :
    (∀ k : Key, aggQty t.headers m (cleanRows t m) k =
      ((t.rows.filter (fun r => rowKept t.headers m r && (keyOf t.headers m r == k))).map
        (fun r => coerceQty (getCell t.headers r m.qtyCol))).sum) ∧
    ∀ p ∈ pairsOf t.headers m (cleanRows t m),
      ∀ k ∈ sheetKeys t.headers m (cleanRows t m) p,
        (rowFor t.headers m (cleanRows t m) k)[1]? =
          some (OutCell.num (aggQty t.headers m (cleanRows t m) k)) := by
  constructor
  · intro k
    unfold aggQty rowsOfKey cleanRows
    rw [List.filter_filter]
    apply congrArg List.sum
    apply congrArg
    apply List.filter_congr
    intro a _
    rw [Bool.and_comm]
  · intro p _ k _
    exact rowFor_qty t.headers m (cleanRows t m) k hv

/-- Witness for C1 at the spec's example: three Pencil rows with quantities
`"3"`, `"2"`, `"abc"` aggregate to Quantity 5 in the emitted sheet row. -/
theorem quantity_sum_invariant_witness :
    (rowFor tSum.headers mStd (cleanRows tSum mStd) ("Math", "L1", "Pencil"))[1]? =
      some (OutCell.num 5) := by
  have h := (quantity_sum_invariant tSum mStd (by decide)).2 ("Math", "L1") (by decide)
    ("Math", "L1", "Pencil") (by decide)
  rw [h]
  decide

/-- C2: the claim (and the spec) say generation is total and returns a valid
workbook with an empty INDEX when zero groups survive cleaning; the code
instead fails there: with one row whose class is null, zero groups remain and
`pd.DataFrame([]).sort_values(["Class", "Lesson"])` raises `KeyError: 'Class'`
(an empty frame has no columns), so no workbook is produced. -/
theorem zero_groups_keyerror :
    make_output_excel tNullClass mStd = Except.error (PdError.keyError "Class") := by
  decide

/-- C3 counterexample: calling the core with `classColumn == itemColumn` does
not fail with an `InvalidMapping` error — `make_output_excel` contains no
distinctness re-check at all (the only check lives in the UI layer).  The call
fails incidentally with the pandas `ValueError` raised when
`groupby(..., as_index=False)` re-inserts the duplicated grouping label. -/
theorem no_invalid_mapping_check :
    make_output_excel tDup mDup =
      Except.error (PdError.valueError "cannot insert C, already exists") ∧
    make_output_excel tDup mDup ≠ Except.error PdError.invalidMapping := by
  constructor
  · decide
  · decide

/-- C3 (amended): for every table containing the mapped columns, a mapping with
`classColumn == itemColumn` (quantity distinct, no optional columns) makes
`make_output_excel` fail — but with the incidental pandas
`ValueError: cannot insert <class column>, already exists`, not with a named
`InvalidMapping`; the core performs no distinctness re-check of its own. -/
theorem class_eq_item_value_error (t : Table) (m : Mapping)
    (h1 : m.classCol ∈ t.headers) (h2 : m.lessonCol ∈ t.headers)
    (h4 : m.qtyCol ∈ t.headers) (hci : m.itemCol = m.classCol)
    (hq1 : m.qtyCol ≠ m.classCol) (hq2 : m.qtyCol ≠ m.lessonCol)
    (hs : m.sizeCol = none) (hu : m.uomCol = none) :
    make_output_excel t m =
      Except.error (PdError.valueError
        ("cannot insert " ++ m.classCol ++ ", already exists")) := by
  have h3 : m.itemCol ∈ t.headers := by rw [hci]; exact h1
  have hagg0 : aggDict t.headers m = [(m.qtyCol, AggKind.sum)] := by
    simp [aggDict, activeOpt, hs, hu]
  have hagg : (aggDict t.headers m).any (fun p => (groupCols m).contains p.1) = false := by
    rw [hagg0]
    simp [groupCols, hci, hq1, hq2]
  have hnodup : ¬ (groupCols m).Nodup := by
    intro hn
    simp only [groupCols, hci] at hn
    exact (List.nodup_cons.1 hn).1 (by simp)
  have hdup : dupGroupCol m = m.classCol := by
    unfold dupGroupCol
    rw [if_pos (Or.inr hci.symm)]
  simp only [make_output_excel]
  rw [if_neg (not_not_intro h1), if_neg (not_not_intro h2), if_neg (not_not_intro h3),
    if_neg (not_not_intro h4), if_neg (by rw [hagg]; decide), if_pos hnodup, hdup]

/-- Witness for the amended C3 at the concrete duplicated mapping. -/
theorem class_eq_item_value_error_witness :
    make_output_excel tDup mDup =
      Except.error (PdError.valueError "cannot insert C, already exists") :=
  class_eq_item_value_error tDup mDup (by decide) (by decide) (by decide) (by decide)
    (by decide) (by decide) (by decide) (by decide)

/-- C4 (amended): every successful generation emits exactly one sheet named
INDEX, as the final sheet, with columns Class, Lesson, Sheet, Items; its rows
are sorted ascending by (class, lesson), with one IndexEntry per SheetGroup
whose itemCount equals that sheet's row count; and the row count equals the
number of distinct generated sheets whenever the safe sheet names do not
collide (under a collision the distinct sheets are fewer — see the
counterexample). -/
theorem index_sheet_shape (t : Table) (m : Mapping) (wb : Workbook)
    (h : make_output_excel t m = Except.ok wb) :
    sheetNames wb = (pairsOf t.headers m (cleanRows t m)).map sheetName ++ ["INDEX"] ∧
    (sheetNames wb).count "INDEX" = 1 ∧
    wb.sheets.getLast? = some ("INDEX", indexFrame t.headers m (cleanRows t m)) ∧
    (indexFrame t.headers m (cleanRows t m)).header = ["Class", "Lesson", "Sheet", "Items"] ∧
    (indexFrame t.headers m (cleanRows t m)).rows.length =
      (pairsOf t.headers m (cleanRows t m)).length ∧
    (indexFrame t.headers m (cleanRows t m)).rows.Pairwise
      (fun r1 r2 => pairLe (strAt r1 0, strAt r1 1) (strAt r2 0, strAt r2 1) = true) ∧
    (∀ p ∈ pairsOf t.headers m (cleanRows t m),
      (⟨p.1, p.2, sheetName p,
        (sheetFrame t.headers m (cleanRows t m) p).rows.length⟩ : IndexEntry) ∈
        indexEntries t.headers m (cleanRows t m)) ∧
    (((sheetNames wb).filter (fun n => n != "INDEX")).Nodup →
      (indexFrame t.headers m (cleanRows t m)).rows.length = distinctDataSheetCount wb) := by
  obtain ⟨rfl, hne⟩ := make_output_ok_inv t m wb h
  have hnames : sheetNames (assembleWB t.headers m (cleanRows t m)) =
      (pairsOf t.headers m (cleanRows t m)).map sheetName ++ ["INDEX"] := by
    simp only [sheetNames, assembleWB, List.map_append, List.map_map]
    congr 1
  refine ⟨hnames, ?_, ?_, rfl, ?_, ?_, ?_, ?_⟩
  · rw [hnames, List.count_append]
    have h0 : ((pairsOf t.headers m (cleanRows t m)).map sheetName).count "INDEX" = 0 := by
      rw [List.count_eq_zero]
      intro hmem
      obtain ⟨p, _, hp⟩ := List.mem_map.1 hmem
      exact sheetName_ne_INDEX p hp
    rw [h0]
    decide
  · unfold assembleWB
    rw [List.getLast?_append]
    rfl
  · unfold indexFrame indexEntries
    rw [List.length_map, length_sortByB, List.length_map]
  · unfold indexFrame
    apply List.Pairwise.map
    · intro a b hab
      exact hab
    · exact pairwise_sortByB idxLe idxLe_total idxLe_trans _
  · intro p hp
    have hlen : (sheetFrame t.headers m (cleanRows t m) p).rows.length =
        (sheetKeys t.headers m (cleanRows t m) p).length := by
      unfold sheetFrame
      exact List.length_map _ _
    rw [hlen]
    unfold indexEntries
    exact List.mem_map_of_mem _ hp
  · intro hnd
    have hfilter : ((sheetNames (assembleWB t.headers m (cleanRows t m))).filter
        (fun n => n != "INDEX")) = (pairsOf t.headers m (cleanRows t m)).map sheetName := by
      rw [hnames, List.filter_append]
      have e1 : ((pairsOf t.headers m (cleanRows t m)).map sheetName).filter
          (fun n => n != "INDEX") = (pairsOf t.headers m (cleanRows t m)).map sheetName := by
        apply List.filter_eq_self.2
        intro a ha
        obtain ⟨p, _, rfl⟩ := List.mem_map.1 ha
        simpa using sheetName_ne_INDEX p
      rw [e1]
      simp
    rw [hfilter] at hnd
    unfold distinctDataSheetCount
    rw [hfilter, List.Nodup.dedup hnd]
    unfold indexFrame indexEntries
    rw [List.length_map, length_sortByB, List.length_map, List.length_map]

/-- C4 counterexample: the distinct classes `"A:"` and `"A-"` with the same
lesson produce the identical safe sheet name `"A- - B"`; the pandas writer
reuses a sheet whose name already exists, so only one distinct data sheet is
generated while the INDEX has two rows — refuting "row count equals the number
of distinct sheets generated". -/
theorem index_rowcount_collision :
    (make_output_excel tColl mReq).toOption.map
      (fun wb => (indexSheetRows wb, distinctDataSheetCount wb)) = some (2, 1) ∧
    (2 : Nat) ≠ 1 := by
  constructor
  · decide
  · decide

/-- Witness for the amended C4 at the collision fixture. -/
theorem index_sheet_shape_witness :
    (sheetNames (assembleWB tColl.headers mReq (cleanRows tColl mReq))).count "INDEX" = 1 :=
  (index_sheet_shape tColl mReq (assembleWB tColl.headers mReq (cleanRows tColl mReq))
    (by decide)).2.1

/-- C5: a row with a null class, lesson, or item is discarded and contributes
to no output at all, even with a valid quantity (inserting it anywhere leaves
the result of generation unchanged); a row with all three identity cells
present is kept by cleaning regardless of its quantity; a null or unparseable
quantity coerces to zero; and coercion never fails the operation — generation
succeeds whenever the structural guards pass and at least one group exists. -/
theorem cleaning_discards_and_coerces (hd : List String) (m : Mapping) :
    (∀ (pre post : List (List Cell)) (r : List Cell), rowKept hd m r = false →
      make_output_excel ⟨hd, pre ++ r :: post⟩ m = make_output_excel ⟨hd, pre ++ post⟩ m) ∧
    (∀ (pre post : List (List Cell)) (r : List Cell), rowKept hd m r = true →
      cleanRows ⟨hd, pre ++ r :: post⟩ m =
        pre.filter (rowKept hd m) ++ r :: post.filter (rowKept hd m)) ∧
    coerceQty none = 0 ∧
    (∀ s : String, parseNum s = none → coerceQty (some s) = 0) ∧
    (∀ t : Table, m.classCol ∈ t.headers → m.lessonCol ∈ t.headers →
      m.itemCol ∈ t.headers → m.qtyCol ∈ t.headers →
      (aggDict t.headers m).any (fun p => (groupCols m).contains p.1) = false →
      (groupCols m).Nodup → cleanRows t m ≠ [] →
      exceptOk (make_output_excel t m) = true) := by
  refine ⟨?_, ?_, rfl, ?_, ?_⟩
  · intro pre post r hr
    have hc : cleanRows ⟨hd, pre ++ r :: post⟩ m = cleanRows ⟨hd, pre ++ post⟩ m := by
      simp [cleanRows, List.filter_append, List.filter_cons, hr]
    simp only [make_output_excel]
    rw [hc]
  · intro pre post r hr
    simp [cleanRows, List.filter_append, List.filter_cons, hr]
  · intro s h
    simp [coerceQty, h]
  · intro t h1 h2 h3 h4 h5 h6 h7
    have hp : pairsOf t.headers m (cleanRows t m) ≠ [] :=
      fun h0 => h7 (pairsOf_eq_nil _ _ _ h0)
    rw [make_output_eq_ok t m h1 h2 h3 h4 h5 h6 hp]
    rfl

/-- Witness for C5: inserting a row with null class/lesson/item leaves the
result unchanged, and generation succeeds on the example table. -/
theorem cleaning_discards_and_coerces_witness :
    make_output_excel ⟨["Class", "Lesson", "Item", "Qty"],
        [[none, none, none, some "9"]]⟩ mStd =
      make_output_excel ⟨["Class", "Lesson", "Item", "Qty"], []⟩ mStd ∧
    exceptOk (make_output_excel tSum mStd) = true := by
  constructor
  · exact (cleaning_discards_and_coerces ["Class", "Lesson", "Item", "Qty"] mStd).1
      [] [] [none, none, none, some "9"] (by decide)
  · exact (cleaning_discards_and_coerces ["Class", "Lesson", "Item", "Qty"] mStd).2.2.2.2
      tSum (by decide) (by decide) (by decide) (by decide) (by decide) (by decide)
      (by decide)

/-- C7 counterexample: the first (post-cleaning) row of the group has a NULL
size and the second has `"Large"`; the emitted size is `"Large"` — pandas
`"first"` aggregation returns the first NON-null value, contradicting the
claim's "regardless of whether that first value is null". -/
theorem size_first_nonnull :
    (make_output_excel tFirst mSize).toOption.bind (fun wb => sheetCell wb 0 0 2) =
      some (OutCell.str "Large") ∧ OutCell.str "Large" ≠ OutCell.blank := by
  constructor
  · decide
  · decide

/-- C7 (amended): when an optional column is mapped and exists in the table,
the emitted value for each group is the first NON-null value of that column
over the group's cleaned rows in original row order (blank when all are null),
for size and unit alike; a mapped optional column that does not exist in the
table is silently omitted from every output record. -/
theorem optional_first_value (t : Table) (m : Mapping) (hv : validMapping m = true) :
    (∀ s : String, activeOpt t.headers m.sizeCol = some s → ∀ k : Key,
      (rowFor t.headers m (cleanRows t m) k)[2]? =
        some (cellToOut (((rowsOfKey t.headers m (cleanRows t m) k).filterMap
          (fun r => getCell t.headers r s)).head?))) ∧
    (∀ u : String, activeOpt t.headers m.uomCol = some u → ∀ k : Key,
      (rowFor t.headers m (cleanRows t m) k)[
        (if (activeOpt t.headers m.sizeCol).isSome then 3 else 2)]? =
        some (cellToOut (((rowsOfKey t.headers m (cleanRows t m) k).filterMap
          (fun r => getCell t.headers r u)).head?))) ∧
    (activeOpt t.headers m.sizeCol = none → activeOpt t.headers m.uomCol = none →
      outCols t.headers m = [m.itemCol, m.qtyCol] ∧
      (∀ p : String × String,
        (sheetFrame t.headers m (cleanRows t m) p).header = ["Item", "Quantity"]) ∧
      ∀ k : Key, (rowFor t.headers m (cleanRows t m) k).length = 2) := by
  refine ⟨?_, ?_, ?_⟩
  · intro s hs k
    have ho : (outCols t.headers m)[2]? = some s := by
      unfold outCols
      rw [hs]
      simp
    unfold rowFor
    rw [List.getElem?_map, ho]
    simp only [Option.map_some']
    rw [df2Val_first t.headers m (cleanRows t m) k hv s (Or.inl hs)]
    unfold aggFirstVal
    rw [findSome?_eq_head_filterMap]
  · intro u hu k
    cases hsz : activeOpt t.headers m.sizeCol with
    | some s =>
      have ho : (outCols t.headers m)[3]? = some u := by
        unfold outCols
        rw [hsz, hu]
        simp
      show (rowFor t.headers m (cleanRows t m) k)[3]? =
        some (cellToOut (((rowsOfKey t.headers m (cleanRows t m) k).filterMap
          (fun r => getCell t.headers r u)).head?))
      unfold rowFor
      rw [List.getElem?_map, ho]
      simp only [Option.map_some']
      rw [df2Val_first t.headers m (cleanRows t m) k hv u (Or.inr hu)]
      unfold aggFirstVal
      rw [findSome?_eq_head_filterMap]
    | none =>
      have ho : (outCols t.headers m)[2]? = some u := by
        unfold outCols
        rw [hsz, hu]
        simp
      show (rowFor t.headers m (cleanRows t m) k)[2]? =
        some (cellToOut (((rowsOfKey t.headers m (cleanRows t m) k).filterMap
          (fun r => getCell t.headers r u)).head?))
      unfold rowFor
      rw [List.getElem?_map, ho]
      simp only [Option.map_some']
      rw [df2Val_first t.headers m (cleanRows t m) k hv u (Or.inr hu)]
      unfold aggFirstVal
      rw [findSome?_eq_head_filterMap]
  · intro hz1 hz2
    have ho : outCols t.headers m = [m.itemCol, m.qtyCol] := by
      unfold outCols
      rw [hz1, hz2]
      rfl
    refine ⟨ho, ?_, ?_⟩
    · intro p
      unfold sheetFrame
      rw [ho]
      simp [renameLabel_item m hv, renameLabel_qty m hv]
    · intro k
      unfold rowFor
      rw [ho]
      rfl

/-- Witness for the amended C7 at the concrete fixture. -/
theorem optional_first_value_witness :
    (rowFor tFirst.headers mSize (cleanRows tFirst mSize) ("a", "b", "x"))[2]? =
      some (OutCell.str "Large") := by
  have h := (optional_first_value tFirst mSize (by decide)).1 "S" (by decide)
    ("a", "b", "x")
  rw [h]
  decide

/-- C8 counterexample: with `sizeColumn = unitColumn` (permitted by the spec's
mapping invariant, which only requires the optional roles to differ from the
required ones), the rename dict's later duplicate key wins and the sheet's
header is Item, Quantity, Unit/Notes, Unit/Notes — not Item, Quantity, Size,
Unit/Notes. -/
theorem double_unit_label :
    (make_output_excel tFirst mSizeUom).toOption.map
      (fun wb => (wb.sheets.map (fun sh => sh.2.header))[0]?) =
      some (some ["Item", "Quantity", "Unit/Notes", "Unit/Notes"]) ∧
    (["Item", "Quantity", "Unit/Notes", "Unit/Notes"] : List String) ≠
      ["Item", "Quantity", "Size", "Unit/Notes"] := by
  constructor
  · decide
  · decide

/-- C8 (amended): within every generated per-(class, lesson) sheet, rows are
sorted ascending by the Item value, and — provided the two optional roles do
not name the same header — the columns are exactly Item, Quantity, then Size
if active, then Unit/Notes if active, with those renamed labels. -/
theorem sheet_layout (t : Table) (m : Mapping) (hv : validMapping m = true)
    (hsu : ∀ s u : String, activeOpt t.headers m.sizeCol = some s →
      activeOpt t.headers m.uomCol = some u → s ≠ u) (p : String × String) :
    (sheetFrame t.headers m (cleanRows t m) p).header =
      ["Item", "Quantity"] ++
        (if (activeOpt t.headers m.sizeCol).isSome then ["Size"] else []) ++
        (if (activeOpt t.headers m.uomCol).isSome then ["Unit/Notes"] else []) ∧
    (sheetFrame t.headers m (cleanRows t m) p).rows.Pairwise
      (fun r1 r2 => strLe (itemOf r1) (itemOf r2) = true) := by
  constructor
  · unfold sheetFrame outCols
    cases hs : activeOpt t.headers m.sizeCol with
    | none =>
      cases hu : activeOpt t.headers m.uomCol with
      | none => simp [renameLabel_item m hv, renameLabel_qty m hv]
      | some u =>
        have hlabU : renameLabel m u = "Unit/Notes" := by
          unfold renameLabel
          rw [if_pos (activeOpt_some _ _ _ hu).1]
        simp [renameLabel_item m hv, renameLabel_qty m hv, hlabU]
    | some s =>
      have hsraw := activeOpt_some _ _ _ hs
      have hnu : m.uomCol ≠ some s := by
        intro he
        have hact : activeOpt t.headers m.uomCol = some s := by
          rw [he]
          simp only [activeOpt]
          rw [if_pos ⟨hsraw.2.1, hsraw.2.2⟩]
        exact hsu s s hs hact rfl
      have hlabS : renameLabel m s = "Size" := by
        unfold renameLabel
        rw [if_neg hnu, if_pos hsraw.1]
      cases hu : activeOpt t.headers m.uomCol with
      | none => simp [renameLabel_item m hv, renameLabel_qty m hv, hlabS]
      | some u =>
        have hlabU : renameLabel m u = "Unit/Notes" := by
          unfold renameLabel
          rw [if_pos (activeOpt_some _ _ _ hu).1]
        simp [renameLabel_item m hv, renameLabel_qty m hv, hlabS, hlabU]
  · unfold sheetFrame
    apply List.Pairwise.map
    · intro a b hab
      rw [itemOf_rowFor t.headers m (cleanRows t m) a hv,
        itemOf_rowFor t.headers m (cleanRows t m) b hv]
      exact hab
    · exact pairwise_sortByB itemLe itemLe_total itemLe_trans _

/-- Witness for the amended C8 at the example table (no optional columns). -/
theorem sheet_layout_witness :
    (sheetFrame tSum.headers mStd (cleanRows tSum mStd) ("Math", "L1")).header =
      ["Item", "Quantity"] := by
  have h := (sheet_layout tSum mStd (by decide)
    (by
      intro s u hs hu
      rw [show activeOpt tSum.headers mStd.sizeCol = none from rfl] at hs
      exact Option.noConfusion hs)
    ("Math", "L1")).1
  exact h.trans (by decide)

end App
